import Mathlib

/-!
Verification development for the react-injectable library (src/src/index.tsx).

The library exports four higher-order components:
  InjectSingle, InjectSingleGuarded, Inject, InjectGuarded
plus an inline Object.assign polyfill (objectAssign).

Shallow embedding:
  * JS values are the inductive `Value`; the Absent sentinel is `Value.undef`
    (the code checks `value === undefined`).
  * A props object is a `Record`: an association list with JS object
    semantics — unique keys in practice, insertion order preserved,
    assignment overwrites in place or appends.
  * `assignFields t s` is the field-level effect of
    `objectAssign(t, s)` / the ES5 polyfill loop
    `for (var p in s) if (hasOwnProperty(s, p)) t[p] = s[p]`.
  * `objectAssign` itself is modelled at the heap level (records addressed
    by `Nat`) so that its in-place mutation of the first argument is
    observable, exactly as in the source where the polyfill writes into
    its `target` argument and returns it.
  * A component built by the library is a `Component`: a chain of
    injector layers around an abstract wrapped target. `render` gives its
    output under an environment `env : Nat → Value` assigning to every
    context handle its currently published value; it follows the source
    line by line: InjectSingle renders the wrapped component with
    `objectAssign({[PropName]: value}, props)` (a freshly allocated
    one-field record, so the functional `assignFields` is faithful) and
    forwards `ref` unchanged; InjectSingleGuarded first checks
    `value === undefined` and returns `null` (our `Node.empty`);
    Inject / InjectGuarded fold the single-value injectors over the map
    entries in enumeration order.
-/

namespace ReactInjectable

/-- JS runtime values as far as the library can observe them: the
`undefined` sentinel, `null`, booleans, numbers and strings. -/
inductive Value where
  | undef : Value
  | null : Value
  | bool : Bool → Value
  | num : Int → Value
  | str : String → Value
deriving DecidableEq, Repr

/-- A property record: a JS object as an ordered association list from
property name to value. -/
abbrev Record := List (String × Value)

/-- Property read `r[k]`: the first binding of `k`, or `undefined` when the
key is missing (JS semantics). -/
def getProp : Record → String → Value
  | [], _ => Value.undef
  | (k0, v) :: rest, k => if k0 = k then v else getProp rest k

/-- Property write `r[k] = v`: overwrite the existing binding in place, or
append a fresh binding (JS object assignment). -/
def setProp : Record → String → Value → Record
  | [], k, v => [(k, v)]
  | (k0, v0) :: rest, k, v =>
      if k0 = k then (k, v) :: rest else (k0, v0) :: setProp rest k v

/-- Own-property test `hasOwnProperty(r, k)`. -/
def hasKey : Record → String → Bool
  | [], _ => false
  | (k0, _) :: rest, k => if k0 = k then true else hasKey rest k

/-- Well-formedness of a record: keys are pairwise distinct, as they are
for every actual JS object. -/
def wfB : Record → Bool
  | [] => true
  | (k, _) :: rest => !hasKey rest k && wfB rest

/-- Field-level effect of `objectAssign(t, s)`: every own-enumerable field
of `s` is written into `t` in enumeration order. -/
def assignFields (t s : Record) : Record :=
  s.foldl (fun acc kv => setProp acc kv.1 kv.2) t

/-- A heap of JS objects, addressed by `Nat`, for observing the in-place
mutation performed by the `objectAssign` polyfill. -/
def Heap := Nat → Record

/-- Heap update at one address. -/
def heapUpdate (h : Heap) (i : Nat) (r : Record) : Heap :=
  fun j => if j = i then r else h j

/-- The `objectAssign` polyfill of src/src/index.tsx at the heap level:
given the addresses of the target and source objects it writes every
own-enumerable field of the source into the target object itself and
returns the target's address (`return t`). -/
def objectAssign (h : Heap) (t s : Nat) : Heap × Nat :=
  (heapUpdate h t (assignFields (h t) (h s)), t)

/-- A reference handle, as React classifies them: a callback ref, a mutable
cell ref (`React.createRef`), or a value of unrecognized shape. -/
inductive RefHandle where
  | callback : Nat → RefHandle
  | mutableCell : Nat → RefHandle
  | unrecognized : Nat → RefHandle
deriving DecidableEq, Repr

/-- A handle shape the host renderer accepts. -/
def RefHandle.recognized : RefHandle → Bool
  | .callback _ => true
  | .mutableCell _ => true
  | .unrecognized _ => false

/-- A component as built by the library: an abstract wrapped target
component (identified by a `Nat`), or one of the two single-value injector
layers, each holding a context handle (`Nat`), a property name, and the
wrapped inner component. -/
inductive Component where
  | target : Nat → Component
  | injectSingle : Nat → String → Component → Component
  | injectSingleGuarded : Nat → String → Component → Component
deriving DecidableEq, Repr

/-- Render output: either React's canonical empty node (`null`), or the
instantiation of a target component with a final props record and an
attached reference handle. Injector layers never appear in the output:
they only rewrite props before the target is instantiated. -/
inductive Node where
  | empty : Node
  | inst : Nat → Record → Option RefHandle → Node
deriving DecidableEq, Repr

/-- Render a component under `env` (the value currently published on each
context handle), with caller props and a forwarded ref, following the
source: InjectSingle subscribes to the context, builds
`objectAssign({[PropName]: value}, props)` and renders the wrapped
component with it and the unchanged ref; InjectSingleGuarded returns
`null` when `value === undefined`, otherwise behaves identically. -/
def render (env : Nat → Value) : Component → Record → Option RefHandle → Node
  | .target id, props, ref => Node.inst id props ref
  | .injectSingle c p inner, props, ref =>
      render env inner (assignFields [(p, env c)] props) ref
  | .injectSingleGuarded c p inner, props, ref =>
      if env c = Value.undef then Node.empty
      else render env inner (assignFields [(p, env c)] props) ref

/-- The `Inject` HOC: `for (let cv in ContextMap) current =
InjectSingle(ContextMap[cv], cv, current)` — a fold of InjectSingle over
the map entries in enumeration order, starting from the wrapped
component. -/
def Inject (contextMap : List (String × Nat)) (wrapped : Component) : Component :=
  contextMap.foldl (fun current kv => Component.injectSingle kv.2 kv.1 current) wrapped

/-- The `InjectGuarded` HOC: the same fold using InjectSingleGuarded. -/
def InjectGuarded (contextMap : List (String × Nat)) (wrapped : Component) : Component :=
  contextMap.foldl (fun current kv => Component.injectSingleGuarded kv.2 kv.1 current) wrapped

/-- The innermost wrapped target of a chain of injector layers. -/
def targetOf : Component → Nat
  | .target id => id
  | .injectSingle _ _ inner => targetOf inner
  | .injectSingleGuarded _ _ inner => targetOf inner

/-- Records are equivalent when they present the same own-property set and
the same value at every key: this is all a component (or any JS code using
property access and hasOwnProperty) can observe of a props object. -/
def recordEquiv (a b : Record) : Prop :=
  ∀ k, hasKey a k = hasKey b k ∧ getProp a k = getProp b k

/-- Render outputs are equivalent when both are empty, or both instantiate
the same target with observably equal props and the identical ref. -/
def nodeEquiv : Node → Node → Prop
  | Node.empty, Node.empty => True
  | Node.inst i p r, Node.inst j q s => i = j ∧ recordEquiv p q ∧ r = s
  | _, _ => False

/-- What a mounted node's reference handle resolves to, if mounting
succeeded. -/
inductive MountOutcome where
  | nothingMounted : MountOutcome
  | mounted : Nat → Option Nat → MountOutcome
deriving DecidableEq, Repr

/-- Modelled from the spec: the host renderer's mount step, which is not
part of src/ (the UI renderer is an external collaborator). Mounting the
empty node mounts nothing; mounting a target instantiation attaches the
supplied reference handle to that instance — a callback handle is invoked
with the instance, a mutable-cell handle's cell is set to it — so the
handle resolves to the instantiated component; a handle of unrecognized
shape signals a programming-contract violation instead of being silently
dropped. -/
def mount : Node → Except String MountOutcome
  | Node.empty => Except.ok MountOutcome.nothingMounted
  | Node.inst id _ ref =>
      match ref with
      | none => Except.ok (MountOutcome.mounted id none)
      | some (RefHandle.callback _) => Except.ok (MountOutcome.mounted id (some id))
      | some (RefHandle.mutableCell _) => Except.ok (MountOutcome.mounted id (some id))
      | some (RefHandle.unrecognized _) => Except.error "unrecognized ref shape"

/-- Modelled from the spec: after unmount the reference handle resolves to
null/absent (the host renderer invokes a callback handle with null and
clears a mutable cell on removal). -/
def refAfterUnmount (_ : Node) : Option Nat := none

/-- The target component a node instantiates, if any. -/
def Node.targetId : Node → Option Nat
  | Node.empty => none
  | Node.inst i _ _ => some i

/-- The reference handle attached to a node, if any. -/
def Node.refOf : Node → Option RefHandle
  | Node.empty => none
  | Node.inst _ _ r => r

/-- A concrete environment of published context values used by the
witnesses: handle 0 currently publishes the Absent sentinel, handles 1-4
publish ordinary values (including falsy ones). -/
def envEx : Nat → Value := fun c =>
  if c = 0 then Value.undef
  else if c = 1 then Value.str "one"
  else if c = 2 then Value.num 0
  else if c = 3 then Value.bool false
  else Value.null

/-- A concrete two-object heap used by the witnesses: address 0 holds the
empty record, address 1 holds a one-field record. -/
def heapEx : Heap := fun i =>
  if i = 0 then [] else if i = 1 then [("p", Value.str "x")] else []

/-! ### Basic record lemmas -/

theorem getProp_setProp_self (r : Record) (k : String) (v : Value) :
    getProp (setProp r k v) k = v := by
  induction r with
  | nil => simp [setProp, getProp]
  | cons kv rest ih =>
      obtain ⟨k0, v0⟩ := kv
      by_cases h : k0 = k
      · simp [setProp, h, getProp]
      · simp [setProp, h, getProp, ih]

theorem getProp_setProp_ne (r : Record) (k q : String) (v : Value) (h : k ≠ q) :
    getProp (setProp r k v) q = getProp r q := by
  induction r with
  | nil => simp [setProp, getProp, h]
  | cons kv rest ih =>
      obtain ⟨k0, v0⟩ := kv
      by_cases h0 : k0 = k
      · subst h0
        simp [setProp, getProp, h]
      · by_cases hq : k0 = q
        · have hqk : ¬ q = k := fun hh => h hh.symm
          subst hq
          simp [setProp, hqk, getProp]
        · simp [setProp, h0, getProp, hq, ih]

theorem hasKey_setProp (r : Record) (k q : String) (v : Value) :
    hasKey (setProp r k v) q = if k = q then true else hasKey r q := by
  induction r with
  | nil => simp [setProp, hasKey]
  | cons kv rest ih =>
      obtain ⟨k0, v0⟩ := kv
      by_cases h0 : k0 = k
      · subst h0
        by_cases hq : k0 = q <;> simp [setProp, hasKey, hq]
      · by_cases hq : k0 = q
        · subst hq
          have hk : ¬ k = k0 := fun h => h0 h.symm
          simp [setProp, h0, hasKey, hk]
        · simp [setProp, h0, hasKey, hq, ih]

theorem wfB_setProp (r : Record) (k : String) (v : Value) (h : wfB r = true) :
    wfB (setProp r k v) = true := by
  induction r with
  | nil => simp [setProp, wfB, hasKey]
  | cons kv rest ih =>
      obtain ⟨k0, v0⟩ := kv
      simp only [wfB, Bool.and_eq_true, Bool.not_eq_true'] at h
      by_cases h0 : k0 = k
      · subst h0
        simp [setProp, wfB, h.1, h.2]
      · have hkk : ¬ k = k0 := fun hh => h0 hh.symm
        simp [setProp, h0, wfB, hasKey_setProp, hkk, h.1, ih h.2]

theorem hasKey_assignFields (s : Record) :
    ∀ t k, hasKey (assignFields t s) k = (hasKey t k || hasKey s k) := by
  induction s with
  | nil => intro t k; simp [assignFields, hasKey]
  | cons kv rest ih =>
      intro t k
      obtain ⟨k0, v0⟩ := kv
      have hstep : assignFields t ((k0, v0) :: rest) = assignFields (setProp t k0 v0) rest := rfl
      rw [hstep, ih]
      by_cases h0 : k0 = k <;>
        simp [hasKey_setProp, hasKey, h0, Bool.or_comm, Bool.or_left_comm]

theorem wfB_assignFields (s : Record) :
    ∀ t, wfB t = true → wfB (assignFields t s) = true := by
  induction s with
  | nil => intro t ht; exact ht
  | cons kv rest ih =>
      intro t ht
      obtain ⟨k0, v0⟩ := kv
      have hstep : assignFields t ((k0, v0) :: rest) = assignFields (setProp t k0 v0) rest := rfl
      rw [hstep]
      exact ih _ (wfB_setProp _ _ _ ht)

theorem getProp_assignFields_of_not_hasKey (s : Record) :
    ∀ t k, hasKey s k = false → getProp (assignFields t s) k = getProp t k := by
  induction s with
  | nil => intro t k _; rfl
  | cons kv rest ih =>
      intro t k hk
      obtain ⟨k0, v0⟩ := kv
      have h0 : ¬ k0 = k := by
        intro h; simp [hasKey, h] at hk
      have hrest : hasKey rest k = false := by
        simpa [hasKey, h0] using hk
      have hstep : assignFields t ((k0, v0) :: rest) = assignFields (setProp t k0 v0) rest := rfl
      rw [hstep, ih _ _ hrest, getProp_setProp_ne _ _ _ _ h0]

theorem getProp_assignFields (s : Record) :
    ∀ t k, wfB s = true →
      getProp (assignFields t s) k =
        if hasKey s k then getProp s k else getProp t k := by
  induction s with
  | nil => intro t k _; simp [assignFields, hasKey, getProp]
  | cons kv rest ih =>
      intro t k hs
      obtain ⟨k0, v0⟩ := kv
      simp only [wfB, Bool.and_eq_true, Bool.not_eq_true'] at hs
      have hstep : assignFields t ((k0, v0) :: rest) = assignFields (setProp t k0 v0) rest := rfl
      rw [hstep, ih _ _ hs.2]
      by_cases h0 : k0 = k
      · subst h0
        simp [hs.1, hasKey, getProp, getProp_setProp_self]
      · by_cases hk : hasKey rest k
        · simp [hk, hasKey, h0, getProp]
        · simp [hk, hasKey, h0, getProp, getProp_setProp_ne _ _ _ _ h0]

/-! ### Record equivalence and merge lemmas -/

theorem recordEquiv_refl (r : Record) : recordEquiv r r := fun _ => ⟨rfl, rfl⟩

theorem nodeEquiv_refl (n : Node) : nodeEquiv n n := by
  cases n with
  | empty => trivial
  | inst i p r => exact ⟨rfl, recordEquiv_refl p, rfl⟩

theorem wfB_singleton (k : String) (v : Value) : wfB [(k, v)] = true := by
  simp [wfB, hasKey]

theorem assignFields_congr (t R R2 : Record) (hR : wfB R = true) (hR2 : wfB R2 = true)
    (h : recordEquiv R R2) : recordEquiv (assignFields t R) (assignFields t R2) := by
  intro k
  obtain ⟨h1, h2⟩ := h k
  constructor
  · rw [hasKey_assignFields, hasKey_assignFields, h1]
  · rw [getProp_assignFields R t k hR, getProp_assignFields R2 t k hR2, h1, h2]

theorem assignFields_comm (k1 k2 : String) (v1 v2 : Value) (R : Record)
    (hk : k1 ≠ k2) (hR : wfB R = true) :
    recordEquiv (assignFields [(k1, v1)] (assignFields [(k2, v2)] R))
      (assignFields [(k2, v2)] (assignFields [(k1, v1)] R)) := by
  intro k
  have w1 : wfB (assignFields [(k2, v2)] R) = true :=
    wfB_assignFields R [(k2, v2)] (wfB_singleton k2 v2)
  have w2 : wfB (assignFields [(k1, v1)] R) = true :=
    wfB_assignFields R [(k1, v1)] (wfB_singleton k1 v1)
  constructor
  · rw [hasKey_assignFields, hasKey_assignFields, hasKey_assignFields, hasKey_assignFields]
    by_cases h1 : k1 = k <;> by_cases h2 : k2 = k <;>
      simp [hasKey, h1, h2]
  · rw [getProp_assignFields _ _ _ w1, getProp_assignFields _ _ _ w2,
      getProp_assignFields _ _ _ hR, getProp_assignFields _ _ _ hR,
      hasKey_assignFields, hasKey_assignFields]
    by_cases h1 : k1 = k
    · by_cases h2 : k2 = k
      · exact absurd (h1.trans h2.symm) hk
      · subst h1
        by_cases hRk : hasKey R k1 <;> simp [hasKey, getProp, h2, hRk]
    · by_cases h2 : k2 = k
      · subst h2
        by_cases hRk : hasKey R k2 <;> simp [hasKey, getProp, h1, hRk]
      · by_cases hRk : hasKey R k <;> simp [hasKey, getProp, h1, h2, hRk]

/-! ### Render lemmas -/

theorem render_congr (env : Nat → Value) (C : Component) :
    ∀ R R2 ref, wfB R = true → wfB R2 = true → recordEquiv R R2 →
      nodeEquiv (render env C R ref) (render env C R2 ref) := by
  induction C with
  | target id =>
      intro R R2 ref _ _ h
      exact ⟨rfl, h, rfl⟩
  | injectSingle c p inner ih =>
      intro R R2 ref hR hR2 h
      simp only [render]
      exact ih _ _ ref (wfB_assignFields R [(p, env c)] (wfB_singleton p (env c)))
        (wfB_assignFields R2 [(p, env c)] (wfB_singleton p (env c)))
        (assignFields_congr [(p, env c)] R R2 hR hR2 h)
  | injectSingleGuarded c p inner ih =>
      intro R R2 ref hR hR2 h
      by_cases hc : env c = Value.undef
      · simp only [render, if_pos hc]
        trivial
      · simp only [render, if_neg hc]
        exact ih _ _ ref (wfB_assignFields R [(p, env c)] (wfB_singleton p (env c)))
          (wfB_assignFields R2 [(p, env c)] (wfB_singleton p (env c)))
          (assignFields_congr [(p, env c)] R R2 hR hR2 h)

theorem render_shape (env : Nat → Value) (C : Component) :
    ∀ R ref, render env C R ref = Node.empty ∨
      ∃ P, render env C R ref = Node.inst (targetOf C) P ref := by
  induction C with
  | target id =>
      intro R ref
      exact Or.inr ⟨R, rfl⟩
  | injectSingle c p inner ih =>
      intro R ref
      simpa [render, targetOf] using ih _ ref
  | injectSingleGuarded c p inner ih =>
      intro R ref
      by_cases hc : env c = Value.undef
      · left
        simp [render, hc]
      · simpa [render, hc, targetOf] using ih _ ref

theorem render_InjectGuarded_eq_Inject (env : Nat → Value) :
    ∀ (m : List (String × Nat)) (T U : Component),
      (∀ kv ∈ m, env kv.2 ≠ Value.undef) →
      (∀ R ref, render env T R ref = render env U R ref) →
      ∀ R ref, render env (InjectGuarded m T) R ref = render env (Inject m U) R ref := by
  intro m
  induction m with
  | nil =>
      intro T U _ h R ref
      exact h R ref
  | cons kv rest ih =>
      intro T U hdef h R ref
      have hstep1 : InjectGuarded (kv :: rest) T =
          InjectGuarded rest (Component.injectSingleGuarded kv.2 kv.1 T) := rfl
      have hstep2 : Inject (kv :: rest) U =
          Inject rest (Component.injectSingle kv.2 kv.1 U) := rfl
      rw [hstep1, hstep2]
      refine ih _ _ (fun kv2 hm => hdef kv2 (List.mem_cons_of_mem _ hm)) ?_ R ref
      intro R2 ref2
      have hkv : env kv.2 ≠ Value.undef := hdef kv (List.mem_cons_self _ _)
      simp [render, hkv, h]

theorem render_InjectGuarded_empty (env : Nat → Value) :
    ∀ (m : List (String × Nat)) (T : Component),
      (∀ R ref, render env T R ref = Node.empty) →
      ∀ R ref, render env (InjectGuarded m T) R ref = Node.empty := by
  intro m
  induction m with
  | nil =>
      intro T h R ref
      exact h R ref
  | cons kv rest ih =>
      intro T h R ref
      have hstep : InjectGuarded (kv :: rest) T =
          InjectGuarded rest (Component.injectSingleGuarded kv.2 kv.1 T) := rfl
      rw [hstep]
      refine ih _ ?_ R ref
      intro R2 ref2
      by_cases hc : env kv.2 = Value.undef <;> simp [render, hc, h]

theorem render_InjectGuarded_empty_of_mem (env : Nat → Value) :
    ∀ (m : List (String × Nat)) (T : Component),
      (∃ kv ∈ m, env kv.2 = Value.undef) →
      ∀ R ref, render env (InjectGuarded m T) R ref = Node.empty := by
  intro m
  induction m with
  | nil =>
      rintro T ⟨kv, hm, _⟩
      exact absurd hm (List.not_mem_nil _)
  | cons kv0 rest ih =>
      rintro T ⟨kv, hm, hundef⟩ R ref
      have hstep : InjectGuarded (kv0 :: rest) T =
          InjectGuarded rest (Component.injectSingleGuarded kv0.2 kv0.1 T) := rfl
      rw [hstep]
      rcases List.mem_cons.mp hm with heq | hmem
      · subst heq
        refine render_InjectGuarded_empty env rest _ ?_ R ref
        intro R2 ref2
        simp [render, hundef]
      · exact ih _ ⟨kv, hmem, hundef⟩ R ref

theorem render_Inject_ne_empty (env : Nat → Value) :
    ∀ (m : List (String × Nat)) (T : Component),
      (∀ R ref, render env T R ref ≠ Node.empty) →
      ∀ R ref, render env (Inject m T) R ref ≠ Node.empty := by
  intro m
  induction m with
  | nil =>
      intro T h
      exact h
  | cons kv rest ih =>
      intro T h R ref
      have hstep : Inject (kv :: rest) T =
          Inject rest (Component.injectSingle kv.2 kv.1 T) := rfl
      rw [hstep]
      exact ih _ (fun R2 ref2 => by simpa [render] using h _ ref2) R ref

/-! ### Claim theorems -/

/-- C1: for every property record R without the injected key and every
value V published on handle H, rendering the component returned by
InjectSingle(H, p, T) with props R produces the same output as
instantiating T directly with the shallow merge of the one-field record
containing p bound to V under R; and that merged record always contains
key p bound to V. -/
theorem c1_injectSingle_merges_context_value (env : Nat → Value) (H : Nat) (p : String)
    (T : Component) (R : Record) (ref : Option RefHandle) (V : Value)
    (hpub : env H = V) (hR : hasKey R p = false) :
    render env (Component.injectSingle H p T) R ref =
      render env T (assignFields [(p, V)] R) ref ∧
    getProp (assignFields [(p, V)] R) p = V := by
  subst hpub
  refine ⟨by simp [render], ?_⟩
  rw [getProp_assignFields_of_not_hasKey R [(p, env H)] p hR]
  simp [getProp]

/-- C1 witness at a concrete environment, record and target. -/
theorem c1_injectSingle_merges_context_value_witness :
    envEx 1 = Value.str "one" ∧ hasKey [("q", Value.num 7)] "p" = false ∧
    (render envEx (Component.injectSingle 1 "p" (Component.target 0))
        [("q", Value.num 7)] none =
      render envEx (Component.target 0)
        (assignFields [("p", Value.str "one")] [("q", Value.num 7)]) none ∧
    getProp (assignFields [("p", Value.str "one")] [("q", Value.num 7)]) "p" =
      Value.str "one") :=
  ⟨by decide, by decide,
    c1_injectSingle_merges_context_value envEx 1 "p" (Component.target 0)
      [("q", Value.num 7)] none (Value.str "one") (by decide) (by decide)⟩

/-- C2: the component returned by InjectSingleGuarded renders the canonical
empty node (creating no instance of the target) exactly when the subscribed
value is the Absent sentinel `undefined`; when the value is non-Absent its
render output equals that of InjectSingle on the same inputs. -/
theorem c2_injectSingleGuarded_absent_suppresses (env : Nat → Value) (H : Nat) (p : String)
    (T : Component) (id : Nat) (R : Record) (ref : Option RefHandle) :
    (env H = Value.undef →
      render env (Component.injectSingleGuarded H p T) R ref = Node.empty) ∧
    (env H ≠ Value.undef →
      render env (Component.injectSingleGuarded H p T) R ref =
        render env (Component.injectSingle H p T) R ref) ∧
    (render env (Component.injectSingleGuarded H p (Component.target id)) R ref = Node.empty
      ↔ env H = Value.undef) := by
  refine ⟨fun h => by simp [render, h], fun h => by simp [render, h], ?_, fun h => by simp [render, h]⟩
  intro hempty
  by_contra hc
  simp [render, hc] at hempty

/-- C2 witness: a concrete Absent value suppresses rendering, and a
concrete present value reduces the guarded injector to the unguarded one. -/
theorem c2_injectSingleGuarded_absent_suppresses_witness :
    envEx 0 = Value.undef ∧
    render envEx (Component.injectSingleGuarded 0 "p" (Component.target 4)) [] none =
      Node.empty :=
  ⟨by decide,
    (c2_injectSingleGuarded_absent_suppresses envEx 0 "p" (Component.target 4) 4 [] none).1
      (by decide)⟩

/-- C5: Inject applied to the empty injection map returns the wrapped
component itself, unchanged, and the same holds for InjectGuarded. -/
theorem c5_empty_map_returns_target (T : Component) :
    Inject [] T = T ∧ InjectGuarded [] T = T :=
  ⟨rfl, rfl⟩

/-- C6 counterexample: objectAssign does not copy its first record — it
writes into it. On the concrete heap where address 0 holds the empty
record and address 1 holds a one-field record, after
`objectAssign(heap[0], heap[1])` the record at address 0 has changed, and
the returned record is address 0 itself (the first record), not a fresh
one. -/
theorem c6_objectAssign_mutates_target_counterexample :
    (objectAssign heapEx 0 1).1 0 ≠ heapEx 0 ∧ (objectAssign heapEx 0 1).2 = 0 := by
  decide

/-- C6 (amended): objectAssign returns a record whose fields are the first
record's own-enumerable fields overlaid by the second's, and it leaves the
second record unchanged; but it does not copy the first record — it writes
the overlay into the first record in place and returns that same record.
(In the library the first argument is always a freshly allocated one-field
record, so no caller-supplied record is ever mutated.) -/
theorem c6_objectAssign_overlay_in_place (h : Heap) (t s : Nat)
    (hts : s ≠ t) (hs : wfB (h s) = true) :
    (objectAssign h t s).2 = t ∧
    (objectAssign h t s).1 s = h s ∧
    ∀ k, getProp ((objectAssign h t s).1 t) k =
      if hasKey (h s) k then getProp (h s) k else getProp (h t) k := by
  refine ⟨rfl, ?_, ?_⟩
  · simp [objectAssign, heapUpdate, hts]
  · intro k
    simp only [objectAssign, heapUpdate, if_pos rfl]
    exact getProp_assignFields (h s) (h t) k hs

/-- C6 witness for the amended statement at the concrete heap. -/
theorem c6_objectAssign_overlay_in_place_witness :
    (1 : Nat) ≠ 0 ∧ wfB (heapEx 1) = true ∧
    ((objectAssign heapEx 0 1).2 = 0 ∧
     (objectAssign heapEx 0 1).1 1 = heapEx 1 ∧
     getProp ((objectAssign heapEx 0 1).1 0) "p" =
       if hasKey (heapEx 1) "p" then getProp (heapEx 1) "p" else getProp (heapEx 0) "p") := by
  refine ⟨by decide, by decide, ?_⟩
  obtain ⟨h1, h2, h3⟩ := c6_objectAssign_overlay_in_place heapEx 0 1 (by decide) (by decide)
  exact ⟨h1, h2, h3 "p"⟩

/-- C3: for a two-key injection map with keys "a" and "b", the component
built by Inject produces the same observable render output — for every
environment of published values, every well-formed caller record and every
ref — as the nested composition with "a" applied as the outer layer, and
as the nested composition with "b" applied as the outer layer: the fold
order over the map keys does not affect the final output. -/
theorem c3_inject_two_keys_fold_order_irrelevant (env : Nat → Value) (Ha Hb : Nat)
    (T : Component) (R : Record) (ref : Option RefHandle) (hR : wfB R = true) :
    nodeEquiv (render env (Inject [("a", Ha), ("b", Hb)] T) R ref)
      (render env (Component.injectSingle Ha "a" (Component.injectSingle Hb "b" T)) R ref) ∧
    nodeEquiv (render env (Inject [("a", Ha), ("b", Hb)] T) R ref)
      (render env (Component.injectSingle Hb "b" (Component.injectSingle Ha "a" T)) R ref) := by
  have hInj : Inject [("a", Ha), ("b", Hb)] T =
      Component.injectSingle Hb "b" (Component.injectSingle Ha "a" T) := rfl
  constructor
  · rw [hInj]
    simp only [render]
    refine render_congr env T _ _ ref
      (wfB_assignFields _ [("a", env Ha)] (wfB_singleton _ _))
      (wfB_assignFields _ [("b", env Hb)] (wfB_singleton _ _)) ?_
    exact assignFields_comm "a" "b" (env Ha) (env Hb) R (by decide) hR
  · rw [hInj]
    exact nodeEquiv_refl _

/-- C3 witness at a concrete environment, caller record and target. -/
theorem c3_inject_two_keys_fold_order_irrelevant_witness :
    wfB [("z", Value.num 5)] = true ∧
    nodeEquiv
      (render envEx (Inject [("a", 1), ("b", 2)] (Component.target 0))
        [("z", Value.num 5)] none)
      (render envEx
        (Component.injectSingle 1 "a" (Component.injectSingle 2 "b" (Component.target 0)))
        [("z", Value.num 5)] none) :=
  ⟨by decide,
    (c3_inject_two_keys_fold_order_irrelevant envEx 1 2 (Component.target 0)
      [("z", Value.num 5)] none (by decide)).1⟩

/-- C4: for every injection map, target, caller record and assignment of
published values, the component built by InjectGuarded renders the empty
node (instantiating nothing) as soon as at least one of the subscribed
values is Absent, and renders exactly the output of the unguarded Inject
composition when all subscribed values are non-Absent. -/
theorem c4_injectGuarded_all_or_nothing (env : Nat → Value) (m : List (String × Nat))
    (T : Component) (R : Record) (ref : Option RefHandle) :
    ((∃ kv ∈ m, env kv.2 = Value.undef) →
      render env (InjectGuarded m T) R ref = Node.empty) ∧
    ((∀ kv ∈ m, env kv.2 ≠ Value.undef) →
      render env (InjectGuarded m T) R ref = render env (Inject m T) R ref) :=
  ⟨fun h => render_InjectGuarded_empty_of_mem env m T h R ref,
   fun h => render_InjectGuarded_eq_Inject env m T T h (fun _ _ => rfl) R ref⟩

/-- C4 witness: with one of two mapped contexts Absent the guarded
component renders nothing; with both present it renders exactly as the
unguarded composition. -/
theorem c4_injectGuarded_all_or_nothing_witness :
    envEx 0 = Value.undef ∧
    render envEx (InjectGuarded [("x", 1), ("y", 0)] (Component.target 7)) [] none =
      Node.empty ∧
    render envEx (InjectGuarded [("x", 1), ("y", 2)] (Component.target 7)) [] none =
      render envEx (Inject [("x", 1), ("y", 2)] (Component.target 7)) [] none :=
  ⟨by decide,
    (c4_injectGuarded_all_or_nothing envEx [("x", 1), ("y", 0)] (Component.target 7)
      [] none).1 ⟨("y", 0), by decide, by decide⟩,
    (c4_injectGuarded_all_or_nothing envEx [("x", 1), ("y", 2)] (Component.target 7)
      [] none).2 (by decide)⟩

/-- C7: every injector layer passes an incoming reference handle through
unchanged in identity, so whenever a component built from injector layers
renders at all, the output instantiates the innermost wrapped target with
the identical handle attached; after the host mounts it, a recognized
handle resolves to the instance of that innermost target (never an
intermediate wrapper), and after unmount it resolves to null/absent. -/
theorem c7_ref_passes_through_to_innermost_target (env : Nat → Value) (C : Component)
    (R : Record) (h : RefHandle) (hrec : h.recognized = true)
    (hne : render env C R (some h) ≠ Node.empty) :
    (render env C R (some h)).targetId = some (targetOf C) ∧
    (render env C R (some h)).refOf = some h ∧
    mount (render env C R (some h)) =
      Except.ok (MountOutcome.mounted (targetOf C) (some (targetOf C))) ∧
    refAfterUnmount (render env C R (some h)) = none := by
  rcases render_shape env C R (some h) with hempty | ⟨P, hP⟩
  · exact absurd hempty hne
  · rw [hP]
    refine ⟨rfl, rfl, ?_, rfl⟩
    cases h with
    | callback i => rfl
    | mutableCell i => rfl
    | unrecognized i => simp [RefHandle.recognized] at hrec

/-- C7 witness: a mutable-cell handle supplied to a two-layer injector nest
ends up attached to, and resolving to, the innermost target. -/
theorem c7_ref_passes_through_to_innermost_target_witness :
    (RefHandle.mutableCell 5).recognized = true ∧
    render envEx
        (Component.injectSingle 1 "a" (Component.injectSingleGuarded 2 "b" (Component.target 9)))
        [] (some (RefHandle.mutableCell 5)) ≠ Node.empty ∧
    mount (render envEx
        (Component.injectSingle 1 "a" (Component.injectSingleGuarded 2 "b" (Component.target 9)))
        [] (some (RefHandle.mutableCell 5))) =
      Except.ok (MountOutcome.mounted 9 (some 9)) :=
  ⟨by decide, by decide,
    (c7_ref_passes_through_to_innermost_target envEx
      (Component.injectSingle 1 "a" (Component.injectSingleGuarded 2 "b" (Component.target 9)))
      [] (RefHandle.mutableCell 5) (by decide) (by decide)).2.2.1⟩

/-- C8: a reference handle of unrecognized shape supplied at render time to
any component built from the injectors is never silently dropped: it is
passed through to the target instantiation, where the host renderer's
attachment step signals a programming-contract violation. -/
theorem c8_unrecognized_ref_fails_fast (env : Nat → Value) (C : Component) (R : Record)
    (tag : Nat)
    (hne : render env C R (some (RefHandle.unrecognized tag)) ≠ Node.empty) :
    mount (render env C R (some (RefHandle.unrecognized tag))) =
      Except.error "unrecognized ref shape" := by
  rcases render_shape env C R (some (RefHandle.unrecognized tag)) with hempty | ⟨P, hP⟩
  · exact absurd hempty hne
  · rw [hP]
    rfl

/-- C8 witness at a concrete injector nest and unrecognized handle. -/
theorem c8_unrecognized_ref_fails_fast_witness :
    render envEx (Component.injectSingle 1 "a" (Component.target 9))
        [] (some (RefHandle.unrecognized 3)) ≠ Node.empty ∧
    mount (render envEx (Component.injectSingle 1 "a" (Component.target 9))
        [] (some (RefHandle.unrecognized 3))) =
      Except.error "unrecognized ref shape" :=
  ⟨by decide,
    c8_unrecognized_ref_fails_fast envEx (Component.injectSingle 1 "a" (Component.target 9))
      [] 3 (by decide)⟩

/-- C9: in both guarded variants rendering is suppressed exactly when the
subscribed value is strictly `undefined`: the single guard renders empty
iff its context value is undefined, the multi guard renders empty iff some
mapped context value is undefined, and any non-undefined value — null, 0,
false, the empty string — is injected into the target's property like any
other value. -/
theorem c9_guard_suppresses_only_strict_undefined (env : Nat → Value) (H : Nat)
    (p : String) (id : Nat) (m : List (String × Nat)) (R : Record)
    (ref : Option RefHandle) :
    (render env (Component.injectSingleGuarded H p (Component.target id)) R ref = Node.empty
      ↔ env H = Value.undef) ∧
    (render env (InjectGuarded m (Component.target id)) R ref = Node.empty
      ↔ ∃ kv ∈ m, env kv.2 = Value.undef) ∧
    (env H ≠ Value.undef → hasKey R p = false →
      render env (Component.injectSingleGuarded H p (Component.target id)) R ref =
        Node.inst id (assignFields [(p, env H)] R) ref ∧
      getProp (assignFields [(p, env H)] R) p = env H) := by
  refine ⟨⟨?_, fun h => by simp [render, h]⟩, ⟨?_, ?_⟩, ?_⟩
  · intro hempty
    by_contra hc
    simp [render, hc] at hempty
  · intro hempty
    by_contra hc
    push_neg at hc
    have hne := render_Inject_ne_empty env m (Component.target id)
      (fun R2 ref2 => by simp [render]) R ref
    rw [render_InjectGuarded_eq_Inject env m _ _ hc (fun _ _ => rfl) R ref] at hempty
    exact hne hempty
  · intro h
    exact render_InjectGuarded_empty_of_mem env m _ h R ref
  · intro h hkey
    refine ⟨by simp [render, h], ?_⟩
    rw [getProp_assignFields_of_not_hasKey R [(p, env H)] p hkey]
    simp [getProp]

/-- C9 witness: the falsy payload 0 published on handle 2 does not suppress
the guarded render and is injected into the target's property. -/
theorem c9_guard_suppresses_only_strict_undefined_witness :
    envEx 2 = Value.num 0 ∧ envEx 2 ≠ Value.undef ∧ hasKey [] "p" = false ∧
    (render envEx (Component.injectSingleGuarded 2 "p" (Component.target 1)) [] none =
      Node.inst 1 (assignFields [("p", envEx 2)] []) none ∧
    getProp (assignFields [("p", envEx 2)] []) "p" = envEx 2) :=
  ⟨by decide, by decide, by decide,
    (c9_guard_suppresses_only_strict_undefined envEx 2 "p" 1 [] [] none).2.2
      (by decide) (by decide)⟩

/-- C10: if at runtime the caller-supplied record does contain the injected
property name, the merged record hands the target the caller's value, not
the context value, because the caller props are overlaid after the injected
entry; this holds for InjectSingle and, on a present value, for
InjectSingleGuarded. -/
theorem c10_caller_props_override_injected (env : Nat → Value) (H : Nat) (p : String)
    (T : Component) (R : Record) (ref : Option RefHandle)
    (hWF : wfB R = true) (hin : hasKey R p = true) :
    getProp (assignFields [(p, env H)] R) p = getProp R p ∧
    render env (Component.injectSingle H p T) R ref =
      render env T (assignFields [(p, env H)] R) ref ∧
    (env H ≠ Value.undef →
      render env (Component.injectSingleGuarded H p T) R ref =
        render env T (assignFields [(p, env H)] R) ref) := by
  refine ⟨?_, by simp [render], fun h => by simp [render, h]⟩
  rw [getProp_assignFields R [(p, env H)] p hWF, hin]
  simp

/-- C10 witness: a caller record that smuggles in the injected key "p"
keeps its own value in the merged record. -/
theorem c10_caller_props_override_injected_witness :
    wfB [("p", Value.str "caller")] = true ∧
    hasKey [("p", Value.str "caller")] "p" = true ∧
    getProp (assignFields [("p", envEx 1)] [("p", Value.str "caller")]) "p" =
      getProp [("p", Value.str "caller")] "p" :=
  ⟨by decide, by decide,
    (c10_caller_props_override_injected envEx 1 "p" (Component.target 0)
      [("p", Value.str "caller")] none (by decide) (by decide)).1⟩

end ReactInjectable
